import Mathlib

/-!
Verification of the siam error-code extraction and registry core.

This file shallowly embeds, in Lean 4, the parts of the repository that the
checked statements talk about:

* `pkg/util/consts` — constant extraction from Go source files
  (`ExtractInt`, `expandRHS`, `evalIntConst`, `evalStringConst`,
  `ExtractComment`, `ParseErrExternal`, `ParseErrHTTPStatus`);
* `pkg/serrors` — the error-code registry
  (`Code`, `Register`, `MustRegister`, `ParseCoder`, the `init` sentinel);
* `internal/pkg/util` — the assembler loop of `MustRegisterCode`.

Go strings are modelled as `List Char` (the inputs of interest are ASCII, so
byte-level and rune-level views coincide).  Go's 64-bit `int` arithmetic is
modelled on `Int` with explicit two's-complement wrapping.  A Go function that
can panic is modelled with an `Option` result where `none` stands for the
panic; a Go function that can return an `error` is modelled accordingly.
-/

set_option autoImplicit false

namespace Siam

/-- Go strings, byte-for-byte (ASCII). -/
abbrev Str := List Char

/-- Convert a Lean string literal to the `Str` model. -/
def gs (s : String) : Str := s.toList

/-! ## Model of `strings.Split` (Go standard library)

`strings.Split(s, sep)` with a nonempty `sep` cuts `s` around every
non-overlapping, leftmost-first occurrence of `sep`.  The auxiliary function
walks the string one character at a time; `skip` counts characters of an
already-matched separator that still have to be consumed, so the recursion is
structural in the string. -/

def splitGoAux (sep : Str) : Str → Nat → Str → List Str
  | acc, _, [] => [acc.reverse]
  | acc, skip, c :: rest =>
    match skip with
    | k + 1 => splitGoAux sep acc k rest
    | 0 =>
      if sep.isPrefixOf (c :: rest) then
        acc.reverse :: splitGoAux sep [] (sep.length - 1) rest
      else
        splitGoAux sep (c :: acc) 0 rest

/-- `strings.Split`.  The empty-separator case explodes into characters, as in
Go; the parsers below only ever use nonempty separators. -/
def splitGo (sep s : Str) : List Str :=
  if sep = [] then s.map (fun c => [c]) else splitGoAux sep [] 0 s

/-- Whether the nonempty pattern `sep` occurs as a contiguous substring. -/
def occursB (sep : Str) : Str → Bool
  | [] => sep.isPrefixOf []
  | c :: rest => sep.isPrefixOf (c :: rest) || occursB sep rest


/-! ## The comment parsers (`pkg/util/consts`)

`ParseErrExternal` and `ParseErrHTTPStatus` from the source:

* both log a warning and return `""` when the comment does not start with
  `Err` (we model the returned value; the log is a side effect outside the
  model);
* `ParseErrExternal` then evaluates
  `strings.Split(strings.Split(com, ".")[0], ": ")[1]`;
* `ParseErrHTTPStatus` then evaluates
  `strings.Split(strings.Split(com, ":")[0], " ")[2]`.

The index `[0]` is always in range because `strings.Split` returns at least
one element (`splitGoAux_ne_nil`); the indices `[1]` and `[2]` are plain
slice indexing and panic when out of range.  A panic is modelled as `none`. -/

def parseErrExternal (com : Str) : Option Str :=
  if (gs "Err").isPrefixOf com then
    (splitGo (gs ": ") ((splitGo (gs ".") com).headD [])).get? 1
  else
    -- warning logged, empty string returned
    some []

def parseErrHTTPStatus (com : Str) : Option Str :=
  if (gs "Err").isPrefixOf com then
    (splitGo (gs " ") ((splitGo (gs ":") com).headD [])).get? 2
  else
    -- warning logged, empty string returned
    some []

/-! ## Go 64-bit integer arithmetic

Go's `int` is 64-bit two's complement.  We model values as mathematical
integers and wrap explicitly where Go wraps. -/

/-- Wrap an integer into the `int64` range, two's-complement style. -/
def wrap64 (n : Int) : Int := (n + 2 ^ 63) % 2 ^ 64 - 2 ^ 63

/-- The `uint64` bit pattern of an `int64` value. -/
def u64 (n : Int) : Nat := (n % 2 ^ 64).toNat

/-- Bitwise operation on `int64` via the `uint64` bit patterns. -/
def bit64 (f : Nat → Nat → Nat) (a b : Int) : Int := wrap64 (f (u64 a) (u64 b))

/-- `int(uint64(a) << uint(b))` for `b ≥ 0`: shifts of 64 or more produce 0. -/
def shl64 (a : Int) (b : Nat) : Int := if 64 ≤ b then 0 else wrap64 ((u64 a) <<< b)

/-- `int(uint64(a) >> uint(b))` for `b ≥ 0`. -/
def shr64 (a : Int) (b : Nat) : Int := wrap64 ((u64 a) >>> b)

/-! ## Model of `strconv.ParseInt(s, 0, 64)` and `strconv.Atoi`
(Go standard library), used by `evalIntConst` for literals and by
`MustRegisterCode` for the HTTP status. -/

/-- Go's `lower`: map an ASCII letter to lower case by setting bit 5. -/
def lowerCh (c : Char) : Char := Char.ofNat (c.toNat ||| 32)

/-- Digit value of a character, as in `ParseUint` (0-9, then letters). -/
def digitValGo (c : Char) : Option Nat :=
  if '0' ≤ c ∧ c ≤ '9' then some (c.toNat - '0'.toNat)
  else if 'a' ≤ lowerCh c ∧ lowerCh c ≤ 'z' then some ((lowerCh c).toNat - 'a'.toNat + 10)
  else none

/-- State of Go's `underscoreOK` scan: beginning, after digit (or base
prefix), after underscore, after other. -/
inductive UState | start | dig | und | oth
deriving DecidableEq

/-- The scanning loop of `underscoreOK`. -/
def underscoreLoop (hex : Bool) : UState → Str → Bool
  | saw, [] => saw ≠ UState.und
  | saw, c :: rest =>
    if ('0' ≤ c ∧ c ≤ '9') ∨ (hex ∧ 'a' ≤ lowerCh c ∧ lowerCh c ≤ 'f') then
      underscoreLoop hex UState.dig rest
    else if c = '_' then
      if saw = UState.dig then underscoreLoop hex UState.und rest else false
    else if saw = UState.und then false
    else underscoreLoop hex UState.oth rest

/-- Go's `strconv.underscoreOK`: underscores may only separate digits (or
follow a base prefix). -/
def underscoreOK (s : Str) : Bool :=
  let s1 := match s with
    | c :: rest => if c = '-' ∨ c = '+' then rest else s
    | [] => s
  match s1 with
  | '0' :: c :: rest =>
    if lowerCh c = 'b' ∨ lowerCh c = 'o' ∨ lowerCh c = 'x' then
      underscoreLoop (lowerCh c = 'x') UState.dig rest
    else underscoreLoop false UState.start s1
  | _ => underscoreLoop false UState.start s1

/-- The digit-accumulation loop of `ParseUint` with 64-bit range checks.
`none` covers both syntax and range errors — `evalIntConst` treats any
non-nil error alike. -/
def parseUintDigits (base : Nat) (allowUnd : Bool) : Nat → Str → Option Nat
  | n, [] => some n
  | n, c :: rest =>
    if c = '_' then
      if allowUnd then parseUintDigits base allowUnd n rest else none
    else
      match digitValGo c with
      | none => none
      | some d =>
        if base ≤ d then none
        else if (2 ^ 64 - 1) / base + 1 ≤ n then none
        else if 2 ^ 64 - 1 < n * base + d then none
        else parseUintDigits base allowUnd (n * base + d) rest

/-- `strconv.ParseUint(s, 0, 64)`: base sniffing from the prefix
(`0b`/`0o`/`0x`, legacy leading `0` meaning octal), then the digit loop,
then the underscore well-formedness check. -/
def parseUint0 (s : Str) : Option Nat :=
  match s with
  | [] => none
  | _ =>
    let p : Nat × Str :=
      match s with
      | '0' :: c :: rest =>
        if lowerCh c = 'b' ∧ rest ≠ [] then (2, rest)
        else if lowerCh c = 'o' ∧ rest ≠ [] then (8, rest)
        else if lowerCh c = 'x' ∧ rest ≠ [] then (16, rest)
        else (8, c :: rest)
      | ['0'] => (8, [])
      | _ => (10, s)
    match parseUintDigits p.1 true 0 p.2 with
    | none => none
    | some n => if p.2.contains '_' ∧ ¬ underscoreOK s then none else some n

/-- `strconv.ParseInt(s, 0, 64)`: optional sign, `ParseUint`, signed range
check. -/
def goParseInt (s : Str) : Option Int :=
  match s with
  | [] => none
  | c :: rest =>
    let q : Bool × Str :=
      if c = '+' then (false, rest) else if c = '-' then (true, rest) else (false, s)
    match parseUint0 q.2 with
    | none => none
    | some un =>
      if q.1 then
        if 2 ^ 63 < un then none else some (-(un : Int))
      else
        if 2 ^ 63 - 1 < un then none else some (un : Int)

/-- `strconv.Atoi(s)` = `ParseInt(s, 10, 64)`: fixed base 10, no base
prefixes, underscores rejected. -/
def goAtoi (s : Str) : Option Int :=
  match s with
  | [] => none
  | c :: rest =>
    let q : Bool × Str :=
      if c = '+' then (false, rest) else if c = '-' then (true, rest) else (false, s)
    match q.2 with
    | [] => none
    | _ =>
      match parseUintDigits 10 false 0 q.2 with
      | none => none
      | some un =>
        if q.1 then
          if 2 ^ 63 < un then none else some (-(un : Int))
        else
          if 2 ^ 63 - 1 < un then none else some (un : Int)

/-! ## Model of `strconv.Unquote` (Go standard library)

Used by `evalStringConst`.  We work at rune level (`Char`), which agrees
with Go's byte-level processing on the ASCII inputs of interest.  `none`
models a non-nil error. -/

/-- Read exactly `n` hexadecimal digits. -/
def takeHex : Nat → Nat → Str → Option (Nat × Str)
  | 0, acc, s => some (acc, s)
  | _ + 1, _, [] => none
  | n + 1, acc, c :: rest =>
    match digitValGo c with
    | some d => if d < 16 then takeHex n (acc * 16 + d) rest else none
    | none => none

/-- Read exactly `n` octal digits. -/
def takeOct : Nat → Nat → Str → Option (Nat × Str)
  | 0, acc, s => some (acc, s)
  | _ + 1, _, [] => none
  | n + 1, acc, c :: rest =>
    if '0' ≤ c ∧ c ≤ '7' then takeOct n (acc * 8 + (c.toNat - '0'.toNat)) rest else none

/-- A code point Go's `utf8.ValidRune` accepts. -/
def validRune (v : Nat) : Bool := decide (v < 0xD800 ∨ (0xE000 ≤ v ∧ v ≤ 0x10FFFF))

/-- `strconv.UnquoteChar`: decode one (possibly escaped) character of a
quoted literal, returning it with the remaining input. -/
def unquoteCharGo (quote : Char) : Str → Option (Char × Str)
  | [] => none
  | c :: rest =>
    if c = quote then none
    else if c ≠ '\\' then some (c, rest)
    else
      match rest with
      | [] => none
      | e :: r2 =>
        if e = 'a' then some (Char.ofNat 7, r2)
        else if e = 'b' then some (Char.ofNat 8, r2)
        else if e = 'f' then some (Char.ofNat 12, r2)
        else if e = 'n' then some (Char.ofNat 10, r2)
        else if e = 'r' then some (Char.ofNat 13, r2)
        else if e = 't' then some (Char.ofNat 9, r2)
        else if e = 'v' then some (Char.ofNat 11, r2)
        else if e = '\\' then some ('\\', r2)
        else if e = '\'' then (if quote = '\'' then some ('\'', r2) else none)
        else if e = '"' then (if quote = '"' then some ('"', r2) else none)
        else if e = 'x' then
          match takeHex 2 0 r2 with
          | some (v, r3) => some (Char.ofNat v, r3)
          | none => none
        else if e = 'u' then
          match takeHex 4 0 r2 with
          | some (v, r3) => if validRune v then some (Char.ofNat v, r3) else none
          | none => none
        else if e = 'U' then
          match takeHex 8 0 r2 with
          | some (v, r3) => if validRune v then some (Char.ofNat v, r3) else none
          | none => none
        else if '0' ≤ e ∧ e ≤ '7' then
          match takeOct 2 (e.toNat - '0'.toNat) r2 with
          | some (v, r3) => if v ≤ 255 then some (Char.ofNat v, r3) else none
          | none => none
        else none

/-- The character loop for a double-quoted string: decode until the closing
quote, rejecting unescaped newlines.  Each step consumes at least one input
character, so input length is enough fuel. -/
def unquoteLoop (quote : Char) : Nat → Str → Option (Str × Str)
  | _, [] => none
  | 0, _ :: _ => none
  | fuel + 1, c :: rest =>
    if c = quote then some ([], rest)
    else if c = '\n' then none
    else
      match unquoteCharGo quote (c :: rest) with
      | none => none
      | some (ch, rem) =>
        match unquoteLoop quote fuel rem with
        | none => none
        | some (out, rem2) => some (ch :: out, rem2)

/-- `strconv.Unquote`: raw backquoted strings (carriage returns removed),
double-quoted strings with escapes, single-quoted literals of exactly one
character.  The closing quote must end the input. -/
def goUnquote (s : Str) : Option Str :=
  match s with
  | [] => none
  | [_] => none
  | q :: rest =>
    if q = '`' then
      if (q :: rest).getLast (by simp) = '`' ∧ ¬ rest.dropLast.contains '`' then
        some (rest.dropLast.filter (fun c => c ≠ Char.ofNat 13))
      else none
    else if q = '"' then
      match unquoteLoop '"' rest.length rest with
      | some (out, []) => some out
      | _ => none
    else if q = '\'' then
      match unquoteCharGo '\'' rest with
      | none => none
      | some (ch, rem) => if rem = ['\''] then some [ch] else none
    else none

/-! ## The constant-expression AST (`go/ast` fragment)

Exactly the shapes `evalIntConst` / `evalStringConst` distinguish.  AST node
kinds that the evaluators handle only through their `default` branch
(function calls, composite literals, selector expressions, …) are the
constructors `call`, `composite` and `other`. -/

/-- `token.Kind` of a `BasicLit`. -/
inductive LitKind | int | float | imag | char | string
deriving DecidableEq

/-- Unary operators: `evalIntConst` handles `+` and `-`; everything else
falls through to `false`. -/
inductive UnOp | add | sub | other
deriving DecidableEq

/-- Binary operators handled by the evaluators' switch; `other` stands for
any further operator (reaching the `default` branch). -/
inductive BinOp | add | sub | mul | quo | rem | lor | land | xor | shl | shr | other
deriving DecidableEq

/-- A constant expression. -/
inductive Expr
  | paren (x : Expr)
  | ident (name : Str)
  | lit (kind : LitKind) (value : Str)
  | unary (op : UnOp) (x : Expr)
  | binary (op : BinOp) (x y : Expr)
  | call
  | composite
  | other
deriving DecidableEq

/-- `evalIntConst(e, iotaVal) (int, bool)`, modelled with `Option Int`
(`none` = `ok=false`).  Matches the Go switch case for case, including
two's-complement wrapping of the 64-bit arithmetic. -/
def evalIntConst : Expr → Int → Option Int
  | Expr.paren x, i => evalIntConst x i
  | Expr.ident n, i => if n = gs "iota" then some i else none
  | Expr.lit k v, _ => if k = LitKind.int then goParseInt v else none
  | Expr.unary op x, i =>
    match op with
    | UnOp.add => evalIntConst x i
    | UnOp.sub => (evalIntConst x i).map (fun v => wrap64 (-v))
    | UnOp.other => none
  | Expr.binary op x y, i =>
    match evalIntConst x i, evalIntConst y i with
    | some lv, some rv =>
      match op with
      | BinOp.add => some (wrap64 (lv + rv))
      | BinOp.sub => some (wrap64 (lv - rv))
      | BinOp.mul => some (wrap64 (lv * rv))
      | BinOp.quo => if rv = 0 then none else some (wrap64 (lv.tdiv rv))
      | BinOp.rem => if rv = 0 then none else some (lv.tmod rv)
      | BinOp.lor => some (bit64 Nat.lor lv rv)
      | BinOp.land => some (bit64 Nat.land lv rv)
      | BinOp.xor => some (bit64 Nat.xor lv rv)
      | BinOp.shl => if rv < 0 then none else some (shl64 lv rv.toNat)
      | BinOp.shr => if rv < 0 then none else some (shr64 lv rv.toNat)
      | BinOp.other => none
    | _, _ => none
  | Expr.call, _ => none
  | Expr.composite, _ => none
  | Expr.other, _ => none

/-- `evalStringConst(e, _) (string, bool)`, modelled with `Option Str`.
On an unquoting error the raw literal text `ex.Value` is returned with
`ok=true` — note: the quotes are NOT stripped, `ex.Value` includes them. -/
def evalStringConst : Expr → Option Str
  | Expr.paren x => evalStringConst x
  | Expr.lit k v =>
    if k = LitKind.string ∨ k = LitKind.char then
      match goUnquote v with
      | some s => some s
      | none => some v
    else none
  | Expr.binary op x y =>
    if op = BinOp.add then
      match evalStringConst x, evalStringConst y with
      | some ls, some rs => some (ls ++ rs)
      | _, _ => none
    else none
  | Expr.ident _ => none
  | Expr.unary _ _ => none
  | Expr.call => none
  | Expr.composite => none
  | Expr.other => none

/-! ## The declaration walker (`ExtractInt`, `expandRHS`, `ExtractComment`)

A parsed file is its list of top-level declarations; a constant group is a
`GenDecl` with `token.CONST`; a spec is a `ValueSpec` (names, value
expressions and the comment groups that `ast.NewCommentMap` attaches to it)
or some other spec kind that the walker skips.  The walker runs after a
successful parse; a file that fails to parse never reaches it. -/

/-- One spec of a constant group. -/
inductive GoSpec
  | value (names : List Str) (values : List Expr) (comments : List Str)
  | nonValue
deriving DecidableEq

/-- One top-level declaration. -/
inductive GoDecl
  | constGroup (specs : List GoSpec)
  | nonConst
deriving DecidableEq

/-- A Go map, by lookup. -/
def Mp (α : Type) := Str → Option α

/-- Go map assignment `m[k] = v`. -/
def mset {α : Type} (m : Mp α) (k : Str) (v : α) : Mp α :=
  fun x => if x = k then some v else m x

/-- The empty map. -/
def mempty {α : Type} : Mp α := fun _ => none

/-- `expandRHS`: expand the RHS expressions to match the number of names,
repeating the last expression as needed.  Entries are `Option Expr` because
Go's `make([]ast.Expr, n)` fills with nils when there is no previous RHS to
reuse. -/
def expandRHS (rhs : List Expr) (n : Nat) : List (Option Expr) :=
  if n = 0 then []
  else if h0 : rhs = [] then List.replicate n none
  else (List.range n).map (fun i =>
    if h : i < rhs.length then some (rhs.get ⟨i, h⟩) else some (rhs.getLast h0))

/-- Assign, in order, each name its evaluated expression; names with no
expression (`nil`) or a failed evaluation are skipped. -/
def assignInts (names : List Str) (exprs : List (Option Expr)) (iotaVal : Int)
    (out : Mp Int) : Mp Int :=
  match names, exprs with
  | [], _ => out
  | _ :: _, [] => out
  | name :: ns, oe :: es =>
    let out' :=
      match oe with
      | none => out
      | some e =>
        match evalIntConst e iotaVal with
        | some v => mset out name v
        | none => out
    assignInts ns es iotaVal out'

/-- The per-group spec loop of `ExtractInt`: per-block `iota` counter and
carried-over RHS.  Non-`ValueSpec` specs are skipped by a `continue` that
also skips the counter increment. -/
def runSpecs : List GoSpec → Nat → List Expr → Mp Int → Mp Int
  | [], _, _, out => out
  | GoSpec.nonValue :: rest, lineIota, prevRHS, out => runSpecs rest lineIota prevRHS out
  | GoSpec.value names values _ :: rest, lineIota, prevRHS, out =>
    let rhs := if values = [] then prevRHS else values
    let prev' := if values = [] then prevRHS else values
    let out' := assignInts names (expandRHS rhs names.length) (lineIota : Int) out
    runSpecs rest (lineIota + 1) prev' out'

/-- One step of `ExtractInt`'s declaration loop: a const group runs its
specs with the `iota` counter reset to 0 and no carried RHS. -/
def extractStep (out : Mp Int) (d : GoDecl) : Mp Int :=
  match d with
  | GoDecl.constGroup specs => runSpecs specs 0 [] out
  | GoDecl.nonConst => out

/-- The declaration loop of `ExtractInt` from a given intermediate map. -/
def extractIntFrom (file : List GoDecl) (out : Mp Int) : Mp Int :=
  file.foldl extractStep out

/-- `ExtractInt` on an already-parsed file: fold the const groups in file
order, resetting `iota` and the carried RHS per group. -/
def extractInt (file : List GoDecl) : Mp Int :=
  extractIntFrom file mempty

/-- `ExtractComment` on an already-parsed file with a parse function that may
panic (`none`): for each comment group attached to a spec, run the parse
function and assign the result to every declared name.  A panic anywhere
aborts the whole extraction. -/
def extractComment (file : List GoDecl) (parse : Str → Option Str) : Option (Mp Str) :=
  file.foldlM
    (fun out d =>
      match d with
      | GoDecl.nonConst => some out
      | GoDecl.constGroup specs =>
        specs.foldlM
          (fun out sp =>
            match sp with
            | GoSpec.nonValue => some out
            | GoSpec.value names _ comments =>
              comments.foldlM
                (fun out cg =>
                  match parse cg with
                  | none => none
                  | some comment => some (names.foldl (fun m name => mset m name comment) out))
                out)
          out)
    mempty

/-! ## The error-code registry (`pkg/serrors/code.go`)

`Code` is the descriptor struct; the package-level `codes` map is the
registry state.  `Register` and `MustRegister` panic on invariant
violations, modelled as `none`.  The mutex only serializes access and does
not change the sequential semantics modelled here. -/

/-- `serrors.Code`: `{C, HTTP, Ext, Ref}`. -/
structure Code where
  C : Int
  HTTP : Int
  Ext : Str
  Ref : Str
deriving DecidableEq

/-- `Code.HTTPStatus()`: its doc comment says it "returns 200" when no
status is set, but the body returns 500 when `HTTP == 0`. -/
def Code.HTTPStatus (coder : Code) : Int :=
  if coder.HTTP = 0 then 500 else coder.HTTP

/-- The package-level `unknownCoder` value (`http.StatusInternalServerError`
is 500). -/
def unknownCoder : Code :=
  { C := 1
    HTTP := 500
    Ext := gs "An internal server error occurred"
    Ref := gs "http://github.com/strayca7/pkg/serrors/README.md" }

/-- The `codes` map. -/
def RegState := Int → Option Code

/-- Map assignment `codes[k] = c`. -/
def rset (s : RegState) (k : Int) (c : Code) : RegState :=
  fun x => if x = k then some c else s x

/-- The registry state after `init()`: `codes[unknownCoder.Code()] =
unknownCoder`, and `unknownCoder.Code()` is 1. -/
def initState : RegState := fun k => if k = 1 then some unknownCoder else none

/-- `Register`: panics (`none`) when the code is 0, otherwise inserts or
overwrites. -/
def register (coder : Code) (s : RegState) : Option RegState :=
  if coder.C = 0 then none else some (rset s coder.C coder)

/-- `MustRegister`: panics when the code is 0, panics when the code already
exists, otherwise inserts. -/
def mustRegister (coder : Code) (s : RegState) : Option RegState :=
  if coder.C = 0 then none
  else if (s coder.C).isSome then none
  else some (rset s coder.C coder)

/-- A registration call, for reasoning about reachable registry states. -/
inductive RegOp
  | reg (c : Code)
  | mustReg (c : Code)

/-- Run a sequence of registration calls; `none` as soon as one panics.
The reachable registry states are exactly the successful results starting
from `initState`. -/
def applyOps : List RegOp → RegState → Option RegState
  | [], s => some s
  | op :: rest, s =>
    match (match op with
           | RegOp.reg c => register c s
           | RegOp.mustReg c => mustRegister c s) with
    | none => none
    | some s' => applyOps rest s'

/-- Modelled from the spec: the code-carrying wrapper type `withCode` is not
in the sources (only `code.go`, its consumer, is); per the spec it is "an
error value that attaches a numeric classification code and an optional
underlying cause", in an error model whose chains can be walked
(`fmt.Errorf`-style wrapping for other errors). -/
inductive GoErr
  | plain (msg : Str) (cause : Option GoErr)
  | withCode (code : Int) (cause : Option GoErr)

/-- `errors.As(err, &wc)` (Go standard library): unwrap until the first
`*withCode` in the chain, returning its fields. -/
def findWithCode : GoErr → Option (Int × Option GoErr)
  | GoErr.withCode c k => some (c, k)
  | GoErr.plain _ (some k) => findWithCode k
  | GoErr.plain _ none => none

/-- Whether the chain contains a code-carrying wrapper with the given code,
recursing through all causes. -/
def containsCode : GoErr → Int → Bool
  | GoErr.withCode c k, t =>
    c = t || (match k with | some e => containsCode e t | none => false)
  | GoErr.plain _ (some k), t => containsCode k t
  | GoErr.plain _ none, _ => false

/-- `ParseCoder`: `nil` in, `nil` out; otherwise look for the first
code-carrying wrapper and return its registered descriptor, falling back to
`unknownCoder`. -/
def parseCoder (s : RegState) (err : Option GoErr) : Option Code :=
  match err with
  | none => none
  | some e =>
    match findWithCode e with
    | some (c, _) =>
      match s c with
      | some coder => some coder
      | none => some unknownCoder
    | none => some unknownCoder

/-! ## The assembler (`MustRegisterCode`, `internal/pkg/util`)

After the three extraction passes succeed, `MustRegisterCode` iterates the
integer map and joins by name: a name also present in both comment maps has
its HTTP string converted with `strconv.Atoi` — a conversion error makes the
whole call return an error — and is then passed to `serrors.MustRegister`,
which can panic.  The iteration order of a Go map is unspecified, so the
loop takes the entries as a list. -/

/-- Outcome of the registration loop: a panic escaping from `MustRegister`,
an error return from the `Atoi` failure, or success. -/
inductive JoinResult
  | panicked
  | errored
  | okReg (s : RegState)

/-- The join-and-register loop of `MustRegisterCode`. -/
def registerLoop : List (Str × Int) → Mp Str → Mp Str → RegState → JoinResult
  | [], _, _, s => JoinResult.okReg s
  | (name, code) :: rest, ext, http, s =>
    match ext name with
    | none => registerLoop rest ext http s
    | some e =>
      match http name with
      | none => registerLoop rest ext http s
      | some h =>
        match goAtoi h with
        | none => JoinResult.errored
        | some status =>
          match mustRegister { C := code, HTTP := status, Ext := e, Ref := [] } s with
          | none => JoinResult.panicked
          | some s' => registerLoop rest ext http s'

/-! ## Helper definitions for the statements

Structural measures of a spec list (how often the `iota` counter is bumped,
which RHS is carried), a syntactic "declares this name" check, and the
concrete inputs the statements evaluate the model on. -/

/-- How many specs of the list bump the per-group `iota` counter (one per
`ValueSpec`, regardless of how many names it declares). -/
def countV : List GoSpec → Nat
  | [] => 0
  | GoSpec.nonValue :: rest => countV rest
  | GoSpec.value _ _ _ :: rest => countV rest + 1

/-- The RHS carried over after processing a list of specs. -/
def carryRHS : List GoSpec → List Expr → List Expr
  | [], prev => prev
  | GoSpec.nonValue :: rest, prev => carryRHS rest prev
  | GoSpec.value _ values _ :: rest, prev =>
    carryRHS rest (if values = [] then prev else values)

/-- Whether a top-level declaration declares the given constant name. -/
def declaresIn (d : GoDecl) (n : Str) : Bool :=
  match d with
  | GoDecl.nonConst => false
  | GoDecl.constGroup specs =>
    specs.any (fun sp =>
      match sp with
      | GoSpec.nonValue => false
      | GoSpec.value names _ _ => decide (n ∈ names))

/-- The spec's example group: `A = iota + 10`, `B`, `C` (B and C omit their
expression lists). -/
def exABC : List GoSpec :=
  [GoSpec.value [gs "A"]
      [Expr.binary BinOp.add (Expr.ident (gs "iota")) (Expr.lit LitKind.int (gs "10"))] [],
   GoSpec.value [gs "B"] [] [],
   GoSpec.value [gs "C"] [] []]

/-- A file with one group: `X = 1 / 0`, `Y = 5`, `Z = f(...)`. -/
def fileDiv : List GoDecl :=
  [GoDecl.constGroup
    [GoSpec.value [gs "X"]
        [Expr.binary BinOp.quo (Expr.lit LitKind.int (gs "1")) (Expr.lit LitKind.int (gs "0"))] [],
     GoSpec.value [gs "Y"] [Expr.lit LitKind.int (gs "5")] [],
     GoSpec.value [gs "Z"] [Expr.call] []]]

/-- A file with one group: `P, Q = 7` — two names, a one-expression list. -/
def filePQ : List GoDecl :=
  [GoDecl.constGroup [GoSpec.value [gs "P", gs "Q"] [Expr.lit LitKind.int (gs "7")] []]]

/-- A file whose first spec has no expression list and nothing to carry. -/
def fileNoRHS : List GoDecl :=
  [GoDecl.constGroup [GoSpec.value [gs "R"] [] []]]

/-- A file with one well-formed comment followed by one `Err`-prefixed
comment that lacks the `- <status>: <message>.` shape (comment texts as
`ast.CommentGroup.Text()` produces them, with a trailing newline). -/
def fileBadComment : List GoDecl :=
  [GoDecl.constGroup
    [GoSpec.value [gs "ErrOk"] [Expr.lit LitKind.int (gs "1")] [gs "ErrOk - 404: Fine.\n"],
     GoSpec.value [gs "ErrBad"] [Expr.lit LitKind.int (gs "2")] [gs "ErrBad\n"]]]

/-- An external-message map carrying an empty parsed message for `ErrX`
(what `ExtractComment` stores for a comment without the `Err` prefix). -/
def extX : Mp Str := mset mempty (gs "ErrX") []

/-- An HTTP-status map carrying an empty parsed status for `ErrX`. -/
def httpX : Mp Str := mset mempty (gs "ErrX") []

/-- A registered descriptor with code 5. -/
def code5 : Code := { C := 5, HTTP := 404, Ext := gs "x", Ref := [] }

/-- The registry after `Register(code5)` at startup. -/
def reg5 : RegState := rset initState 5 code5

/-- An error whose outermost code-carrying wrapper has the unregistered
code 99 and whose cause carries the registered code 5. -/
def nestedErr : GoErr := GoErr.withCode 99 (some (GoErr.withCode 5 none))

/-- A descriptor sharing the sentinel's code 1. -/
def sentinelOverride : Code := { C := 1, HTTP := 200, Ext := [], Ref := [] }

/-! # Theorems

First the supporting lemmas about the embedded library functions, then one
theorem per checked claim. -/

theorem splitGoAux_cons_succ (sep acc : Str) (k : Nat) (c : Char) (rest : Str) :
    splitGoAux sep acc (k + 1) (c :: rest) = splitGoAux sep acc k rest := rfl

theorem splitGoAux_cons_zero (sep acc : Str) (c : Char) (rest : Str) :
    splitGoAux sep acc 0 (c :: rest) =
      if sep.isPrefixOf (c :: rest) then
        acc.reverse :: splitGoAux sep [] (sep.length - 1) rest
      else
        splitGoAux sep (c :: acc) 0 rest := rfl

theorem splitGoAux_ne_nil (sep acc : Str) (skip : Nat) (s : Str) :
    splitGoAux sep acc skip s ≠ [] := by
  induction s generalizing acc skip with
  | nil => simp [splitGoAux]
  | cons c rest ih =>
    cases skip with
    | succ k => rw [splitGoAux_cons_succ]; exact ih _ _
    | zero =>
      rw [splitGoAux_cons_zero]
      by_cases h : sep.isPrefixOf (c :: rest) <;> simp [h, ih]

theorem splitGoAux_length_pos (sep acc : Str) (skip : Nat) (s : Str) :
    1 ≤ (splitGoAux sep acc skip s).length := by
  have h := splitGoAux_ne_nil sep acc skip s
  cases hs : splitGoAux sep acc skip s with
  | nil => exact absurd hs h
  | cons a l => simp

/-- If the separator never occurs, the split is the whole string in one piece. -/
theorem splitGoAux_of_not_occurs (sep : Str) (s : Str) (hocc : occursB sep s = false) :
    ∀ acc : Str, splitGoAux sep acc 0 s = [acc.reverse ++ s] := by
  induction s with
  | nil => intro acc; simp [splitGoAux]
  | cons c rest ih =>
    intro acc
    have h1 : sep.isPrefixOf (c :: rest) = false := by
      by_contra h
      simp only [Bool.not_eq_false] at h
      simp [occursB, h] at hocc
    have h2 : occursB sep rest = false := by
      by_contra h
      simp only [Bool.not_eq_false] at h
      simp [occursB, h] at hocc
    rw [splitGoAux_cons_zero, h1]
    simp [ih h2]

/-- If the nonempty separator occurs somewhere, the split has at least two
pieces. -/
theorem splitGoAux_of_occurs (sep : Str) (hsep : sep ≠ []) (s : Str)
    (hocc : occursB sep s = true) :
    ∀ acc : Str, 2 ≤ (splitGoAux sep acc 0 s).length := by
  induction s with
  | nil =>
    intro acc
    exfalso
    cases sep with
    | nil => exact hsep rfl
    | cons p ps => simp [occursB, List.isPrefixOf] at hocc
  | cons c rest ih =>
    intro acc
    rw [splitGoAux_cons_zero]
    by_cases h : sep.isPrefixOf (c :: rest)
    · simp only [h, if_true, List.length_cons]
      have := splitGoAux_length_pos sep [] (sep.length - 1) rest
      omega
    · have h2 : occursB sep rest = true := by
        simp only [occursB, h] at hocc
        simpa using hocc
      simpa [h] using ih h2 (c :: acc)

/-- For a nonempty separator, the split has at least two parts exactly when
the separator occurs in the string. -/
theorem splitGo_two_le_iff_occurs (sep s : Str) (hsep : sep ≠ []) :
    2 ≤ (splitGo sep s).length ↔ occursB sep s = true := by
  constructor
  · intro h
    by_contra hocc
    simp only [Bool.not_eq_true] at hocc
    rw [splitGo, if_neg hsep, splitGoAux_of_not_occurs sep s hocc []] at h
    simp at h
  · intro h
    rw [splitGo, if_neg hsep]
    exact splitGoAux_of_occurs sep hsep s h []

/-- Indexing a mapped `range`. -/
theorem get?_map_range {α : Type} (n i : Nat) (f : Nat → α) (h : i < n) :
    ((List.range n).map f).get? i = some (f i) := by
  simp [List.get?_eq_getElem?, List.getElem?_map, List.getElem?_range, h]

/-! ## Registry claims -/

/-- C10: `Code.HTTPStatus()` returns 500 when the `HTTP` field is 0 — not
the 200 its own doc comment claims — and returns the `HTTP` field unchanged
otherwise, so a descriptor registered without an explicit HTTP status is
classified as HTTP 500. -/
theorem c10_httpStatus_defaults_to_500 (c : Code) :
    (c.HTTP = 0 → Code.HTTPStatus c = 500 ∧ Code.HTTPStatus c ≠ 200) ∧
    (c.HTTP ≠ 0 → Code.HTTPStatus c = c.HTTP) ∧
    (∀ (code : Int) (ext ref : Str) (s s' : RegState),
      register { C := code, HTTP := 0, Ext := ext, Ref := ref } s = some s' →
      parseCoder s' (some (GoErr.withCode code none)) =
        some { C := code, HTTP := 0, Ext := ext, Ref := ref } ∧
      Code.HTTPStatus { C := code, HTTP := 0, Ext := ext, Ref := ref } = 500) := by
  refine ⟨fun h => ?_, fun h => ?_, fun code ext ref s s' hreg => ?_⟩
  · simp [Code.HTTPStatus, h]
  · simp [Code.HTTPStatus, h]
  · by_cases hc : code = 0
    · simp [register, hc] at hreg
    · simp [register, hc] at hreg
      subst hreg
      exact ⟨by simp [parseCoder, findWithCode, rset], by simp [Code.HTTPStatus]⟩

/-- Witness for C10 at a concrete descriptor. -/
theorem c10_witness :
    Code.HTTPStatus { C := 5, HTTP := 0, Ext := [], Ref := [] } = 500 ∧
    parseCoder (rset initState 5 { C := 5, HTTP := 0, Ext := [], Ref := [] })
        (some (GoErr.withCode 5 none)) =
      some { C := 5, HTTP := 0, Ext := [], Ref := [] } := by
  have h :=
    (c10_httpStatus_defaults_to_500 { C := 5, HTTP := 0, Ext := [], Ref := [] }).2.2
      5 [] [] initState (rset initState 5 { C := 5, HTTP := 0, Ext := [], Ref := [] }) rfl
  exact ⟨h.2, h.1⟩

/-- C6: `Register` panics exactly when the code is 0 and otherwise
inserts-or-overwrites, so registering twice with the same nonzero code
leaves the latest descriptor visible to `ParseCoder`; `MustRegister` panics
exactly when the code is 0 or already present, so a second `MustRegister`
with the same nonzero code always panics. -/
theorem c6_register_mustRegister (c c2 : Code) (s : RegState) :
    (register c s = none ↔ c.C = 0) ∧
    (c.C ≠ 0 → register c s = some (rset s c.C c)) ∧
    (mustRegister c s = none ↔ (c.C = 0 ∨ (s c.C).isSome = true)) ∧
    (c.C ≠ 0 → c2.C = c.C → ∀ s1 s2,
      register c s = some s1 → register c2 s1 = some s2 →
      s2 c.C = some c2 ∧ parseCoder s2 (some (GoErr.withCode c.C none)) = some c2) ∧
    (c.C ≠ 0 → c2.C = c.C → ∀ s1,
      mustRegister c s = some s1 → mustRegister c2 s1 = none) := by
  refine ⟨?_, ?_, ?_, ?_, ?_⟩
  · by_cases h : c.C = 0 <;> simp [register, h]
  · intro h; simp [register, h]
  · by_cases h : c.C = 0
    · simp [mustRegister, h]
    · by_cases h2 : (s c.C).isSome <;> simp [mustRegister, h, h2]
  · intro h1 h2 s1 s2 hr1 hr2
    have hc2 : c2.C ≠ 0 := by rw [h2]; exact h1
    simp [register, h1] at hr1
    simp [register, hc2] at hr2
    subst hr1
    subst hr2
    constructor
    · simp [rset, h2]
    · simp [parseCoder, findWithCode, rset, h2]
  · intro h1 h2 s1 hm1
    have hc2 : c2.C ≠ 0 := by rw [h2]; exact h1
    by_cases hex : (s c.C).isSome
    · simp [mustRegister, h1, hex] at hm1
    · simp [mustRegister, h1, hex] at hm1
      subst hm1
      simp [mustRegister, hc2, rset, h2]

/-- Witness for C6 at concrete descriptors and the post-`init` registry:
the second `MustRegister` of code 2 panics, and a repeated `Register` of
code 2 leaves the second descriptor visible to `ParseCoder`. -/
theorem c6_witness :
    mustRegister { C := 2, HTTP := 500, Ext := [], Ref := [] }
      (rset initState 2 { C := 2, HTTP := 404, Ext := [], Ref := [] }) = none ∧
    parseCoder (rset (rset initState 2 { C := 2, HTTP := 404, Ext := [], Ref := [] })
        2 { C := 2, HTTP := 500, Ext := [], Ref := [] })
      (some (GoErr.withCode 2 none)) = some { C := 2, HTTP := 500, Ext := [], Ref := [] } := by
  constructor
  · exact (c6_register_mustRegister { C := 2, HTTP := 404, Ext := [], Ref := [] }
      { C := 2, HTTP := 500, Ext := [], Ref := [] } initState).2.2.2.2
      (by decide) rfl (rset initState 2 { C := 2, HTTP := 404, Ext := [], Ref := [] }) rfl
  · exact ((c6_register_mustRegister { C := 2, HTTP := 404, Ext := [], Ref := [] }
      { C := 2, HTTP := 500, Ext := [], Ref := [] } initState).2.2.2.1
      (by decide) rfl
      (rset initState 2 { C := 2, HTTP := 404, Ext := [], Ref := [] })
      (rset (rset initState 2 { C := 2, HTTP := 404, Ext := [], Ref := [] })
        2 { C := 2, HTTP := 500, Ext := [], Ref := [] })
      rfl rfl).2

/-- C9 is false as stated: after `init()` the sentinel `unknownCoder` sits
at key 1 (its own code), not at key 0 — the initial, reachable state maps
code 0 to nothing — and a plain `Register` of another descriptor with
code 1 replaces the sentinel. -/
theorem c9_counterexample :
    (applyOps [] initState = some initState ∧ initState 0 = none) ∧
    (applyOps [RegOp.reg sentinelOverride] initState =
        some (rset initState 1 sentinelOverride) ∧
      rset initState 1 sentinelOverride 1 = some sentinelOverride ∧
      sentinelOverride ≠ unknownCoder) := by
  exact ⟨⟨rfl, rfl⟩, ⟨rfl, rfl, by decide⟩⟩

/-- C9 amended: code 0 is reserved but never present — in every reachable
registry state, key 0 is unmapped (registering a code-0 descriptor panics
instead), and some descriptor is always present at key 1, where `init()`
put the `unknownCoder` sentinel; `Register` may replace the sentinel by
another code-1 descriptor, while `MustRegister` with code 1 panics. -/
theorem c9_reserved_code_invariant (ops : List RegOp) (s : RegState)
    (h : applyOps ops initState = some s) :
    s 0 = none ∧ (s 1).isSome = true := by
  have key : ∀ (l : List RegOp) (t u : RegState), t 0 = none → (t 1).isSome = true →
      applyOps l t = some u → u 0 = none ∧ (u 1).isSome = true := by
    intro l
    induction l with
    | nil =>
      intro t u h0 h1 hap
      simp only [applyOps, Option.some.injEq] at hap
      subst hap
      exact ⟨h0, h1⟩
    | cons op rest ih =>
      intro t u h0 h1 hap
      cases op with
      | reg c =>
        by_cases hc : c.C = 0
        · simp [applyOps, register, hc] at hap
        · simp only [applyOps, register, hc, if_false, if_neg hc] at hap
          refine ih _ _ ?_ ?_ hap
          · have : ¬ (0 : Int) = c.C := fun he => hc he.symm
            simp [rset, this, h0]
          · by_cases h1c : (1 : Int) = c.C
            · simp [rset, h1c]
            · simp [rset, h1c, h1]
      | mustReg c =>
        by_cases hc : c.C = 0
        · simp [applyOps, mustRegister, hc] at hap
        · by_cases hex : (t c.C).isSome
          · simp [applyOps, mustRegister, hc, hex] at hap
          · simp only [applyOps, mustRegister, hc, if_neg hc, hex, if_false,
              Bool.false_eq_true, if_neg] at hap
            refine ih _ _ ?_ ?_ hap
            · have : ¬ (0 : Int) = c.C := fun he => hc he.symm
              simp [rset, this, h0]
            · by_cases h1c : (1 : Int) = c.C
              · simp [rset, h1c]
              · simp [rset, h1c, h1]
  exact key ops initState s rfl rfl h

/-- Witness for the amended C9 at the empty call sequence. -/
theorem c9_witness : initState 0 = none ∧ (initState 1).isSome = true :=
  c9_reserved_code_invariant [] initState rfl

/-- C5 is false as stated: the registry knows code 5, the error chain
contains a code-carrying wrapper with code 5, yet `ParseCoder` returns the
unknown descriptor because the chain's FIRST code-carrying wrapper holds
the unregistered code 99 — `errors.As` stops at the first `*withCode`. -/
theorem c5_counterexample :
    register code5 initState = some reg5 ∧
    containsCode nestedErr 5 = true ∧
    reg5 5 = some code5 ∧
    parseCoder reg5 (some nestedErr) = some unknownCoder ∧
    unknownCoder ≠ code5 := by
  exact ⟨rfl, rfl, rfl, rfl, by decide⟩

/-- C5 amended: `ParseCoder` returns `nil` for `nil`; for a non-nil error
it inspects only the FIRST code-carrying wrapper of the chain — returning
its descriptor when that wrapper's code is registered and the reserved
unknown descriptor (code 1, HTTP status 500) otherwise, including when no
wrapper exists at all; it always returns a usable descriptor. -/
theorem c5_parseCoder_first_wrapper (s : RegState) (e : GoErr) :
    parseCoder s none = none ∧
    (findWithCode e = none → parseCoder s (some e) = some unknownCoder) ∧
    (∀ (c : Int) (k : Option GoErr), findWithCode e = some (c, k) →
      (∀ d : Code, s c = some d → parseCoder s (some e) = some d) ∧
      (s c = none → parseCoder s (some e) = some unknownCoder)) ∧
    (parseCoder s (some e)).isSome = true ∧
    unknownCoder.C = 1 ∧ Code.HTTPStatus unknownCoder = 500 := by
  refine ⟨rfl, ?_, ?_, ?_, rfl, rfl⟩
  · intro h; simp [parseCoder, h]
  · intro c k h
    refine ⟨fun d hd => ?_, fun hn => ?_⟩
    · simp [parseCoder, h, hd]
    · simp [parseCoder, h, hn]
  · unfold parseCoder
    cases hf : findWithCode e with
    | none => simp [hf]
    | some p =>
      obtain ⟨c, k⟩ := p
      cases hs : s c <;> simp [hf, hs]

/-- Witness for the amended C5: an error with one unregistered wrapper
resolves to the unknown descriptor. -/
theorem c5_witness : parseCoder initState (some (GoErr.withCode 7 none)) = some unknownCoder :=
  ((c5_parseCoder_first_wrapper initState (GoErr.withCode 7 none)).2.2.1 7 none rfl).2 rfl

/-! ## Evaluator claims -/

/-- C4: `evalIntConst` yields `ok=false` (`none`) for division or modulo by
an evaluated-to-zero divisor, for shifts by a negative amount, for non-iota
identifiers, for non-integer literals (floats), and for unsupported node
kinds (function calls, composite literals, anything else); being a total
function it never crashes; and `ExtractInt` omits such a symbol from the
output map while the rest of the file still extracts. -/
theorem c4_evaluation_gaps (x y : Expr) (i v : Int) (name val : Str) (k : LitKind) :
    (evalIntConst y i = some 0 →
      evalIntConst (Expr.binary BinOp.quo x y) i = none ∧
      evalIntConst (Expr.binary BinOp.rem x y) i = none) ∧
    (evalIntConst y i = some v → v < 0 →
      evalIntConst (Expr.binary BinOp.shl x y) i = none ∧
      evalIntConst (Expr.binary BinOp.shr x y) i = none) ∧
    (name ≠ gs "iota" → evalIntConst (Expr.ident name) i = none) ∧
    (k ≠ LitKind.int → evalIntConst (Expr.lit k val) i = none) ∧
    evalIntConst Expr.call i = none ∧
    evalIntConst Expr.composite i = none ∧
    evalIntConst Expr.other i = none ∧
    (extractInt fileDiv (gs "X") = none ∧
      extractInt fileDiv (gs "Y") = some 5 ∧
      extractInt fileDiv (gs "Z") = none) := by
  refine ⟨fun h => ?_, fun h hv => ?_, fun h => ?_, fun h => ?_, rfl, rfl, rfl, by decide⟩
  · constructor <;> (cases hx : evalIntConst x i <;> simp [evalIntConst, hx, h])
  · constructor <;>
      (cases hx : evalIntConst x i <;> simp [evalIntConst, hx, h, hv, not_le.mpr hv])
  · simp [evalIntConst, h]
  · simp [evalIntConst, h]

/-- Witness for C4 at concrete expressions: `1/0`, `1 << -1`, an unknown
identifier, a float literal. -/
theorem c4_witness :
    evalIntConst
        (Expr.binary BinOp.quo (Expr.lit LitKind.int (gs "1")) (Expr.lit LitKind.int (gs "0"))) 0 =
      none ∧
    evalIntConst
        (Expr.binary BinOp.shl (Expr.lit LitKind.int (gs "1"))
          (Expr.unary UnOp.sub (Expr.lit LitKind.int (gs "1")))) 0 =
      none ∧
    evalIntConst (Expr.ident (gs "foo")) 0 = none ∧
    evalIntConst (Expr.lit LitKind.float (gs "1.5")) 0 = none := by
  refine ⟨?_, ?_, ?_, ?_⟩
  · exact ((c4_evaluation_gaps (Expr.lit LitKind.int (gs "1")) (Expr.lit LitKind.int (gs "0"))
      0 0 (gs "foo") (gs "1.5") LitKind.float).1 (by decide)).1
  · exact ((c4_evaluation_gaps (Expr.lit LitKind.int (gs "1"))
      (Expr.unary UnOp.sub (Expr.lit LitKind.int (gs "1")))
      0 (-1) (gs "foo") (gs "1.5") LitKind.float).2.1 (by decide) (by decide)).1
  · exact (c4_evaluation_gaps Expr.call Expr.call 0 0 (gs "foo") (gs "1.5")
      LitKind.float).2.2.1 (by decide)
  · exact (c4_evaluation_gaps Expr.call Expr.call 0 0 (gs "foo") (gs "1.5")
      LitKind.float).2.2.2.1 (by decide)

/-- C7 names a code bug: on an unquoting error `evalStringConst` returns
`ex.Value` — the raw literal text INCLUDING the surrounding quotes — with
`ok=true`, although the line's own comment says "return raw without
quotes" and the claim says the quotes are stripped.  At the string literal
whose source text is `"\q"` (an invalid escape), the function returns the
five characters `"\q"` quotes included, not `\q`. -/
theorem c7_fallback_keeps_quotes :
    goUnquote (gs "\"\\q\"") = none ∧
    evalStringConst (Expr.lit LitKind.string (gs "\"\\q\"")) = some (gs "\"\\q\"") ∧
    gs "\"\\q\"" ≠ gs "\\q" := by
  exact ⟨by decide, by decide, by decide⟩

/-- C8 is false as stated: in the file `P, Q = 7` the trailing name `Q` is
unmatched by the one-expression list, yet it is present in the output map
with the last expression's value, not skipped. -/
theorem c8_counterexample :
    extractInt filePQ (gs "Q") = some 7 ∧ extractInt filePQ (gs "P") = some 7 := by
  exact ⟨by decide, by decide⟩

/-- C8 amended: `expandRHS` pads a nonempty expression list by repeating
its LAST expression, so each unmatched trailing name receives that
expression's value; names produce no value only when the spec has no
effective expression list at all (`expandRHS` then yields `nil` entries
that the walker skips). -/
theorem c8_expandRHS_repeats_last (rhs : List Expr) (n i : Nat) (e : Expr) :
    expandRHS rhs 0 = [] ∧
    expandRHS [] n = List.replicate n none ∧
    (rhs.get? i = some e → i < n → (expandRHS rhs n).get? i = some (some e)) ∧
    (rhs.getLast? = some e → rhs.length ≤ i → i < n →
      (expandRHS rhs n).get? i = some (some e)) ∧
    extractInt fileNoRHS (gs "R") = none := by
  refine ⟨rfl, ?_, fun hget hn => ?_, fun hlast hge hn => ?_, by decide⟩
  · by_cases h : n = 0 <;> simp [expandRHS, h]
  · have hi : i < rhs.length := (List.get?_eq_some.mp hget).1
    have hrhs : rhs ≠ [] := by
      intro he; subst he; simp at hi
    have hn0 : n ≠ 0 := by omega
    simp only [expandRHS, hn0, if_false, hrhs, dif_neg, if_neg, dite_false]
    rw [get?_map_range n i _ hn, dif_pos hi]
    obtain ⟨h1, h2⟩ := List.get?_eq_some.mp hget
    exact congrArg (fun x => some (some x)) h2
  · have hrhs : rhs ≠ [] := by
      intro he; subst he; simp at hlast
    have hn0 : n ≠ 0 := by omega
    have hni : ¬ i < rhs.length := by omega
    simp only [expandRHS, hn0, if_false, hrhs, dif_neg, if_neg, dite_false]
    rw [get?_map_range n i _ hn, dif_neg hni]
    rw [List.getLast?_eq_getLast_of_ne_nil hrhs] at hlast
    exact congrArg (fun x => some (some x)) (Option.some.inj hlast)

/-- Witness for the amended C8 at a concrete two-name, one-expression
spec. -/
theorem c8_witness :
    (expandRHS [Expr.lit LitKind.int (gs "7")] 2).get? 1 =
      some (some (Expr.lit LitKind.int (gs "7"))) := by
  exact (c8_expandRHS_repeats_last [Expr.lit LitKind.int (gs "7")] 2 1
    (Expr.lit LitKind.int (gs "7"))).2.2.2.1 (by decide) (by decide) (by decide)

/-! ## Walker claims -/

/-- `assignInts` never touches a name the spec does not declare. -/
theorem assignInts_preserve (names : List Str) (exprs : List (Option Expr)) (i : Int)
    (out : Mp Int) (n : Str) (h : ¬ n ∈ names) :
    assignInts names exprs i out n = out n := by
  induction names generalizing exprs out with
  | nil => cases exprs <;> rfl
  | cons nm ns ih =>
    have h1 : ¬ n = nm := fun he => h (by simp [he])
    have h2 : ¬ n ∈ ns := fun he => h (by simp [he])
    cases exprs with
    | nil => rfl
    | cons oe es =>
      show assignInts ns es i _ n = out n
      rw [ih _ _ h2]
      cases oe with
      | none => rfl
      | some e =>
        cases hev : evalIntConst e i <;> simp [hev, mset, h1]

/-- `runSpecs` never touches a name no spec of the group declares. -/
theorem runSpecs_preserve (specs : List GoSpec) (i : Nat) (prev : List Expr)
    (out : Mp Int) (n : Str) (h : declaresIn (GoDecl.constGroup specs) n = false) :
    runSpecs specs i prev out n = out n := by
  induction specs generalizing i prev out with
  | nil => rfl
  | cons sp rest ih =>
    have hrest : declaresIn (GoDecl.constGroup rest) n = false := by
      simp only [declaresIn, List.any_cons, Bool.or_eq_false_iff] at h ⊢
      exact h.2
    cases sp with
    | nonValue => exact ih i prev out hrest
    | value names values comments =>
      have hmem : ¬ n ∈ names := by
        simp only [declaresIn, List.any_cons, Bool.or_eq_false_iff] at h
        simpa using h.1
      show runSpecs rest (i + 1) _ _ n = out n
      rw [ih _ _ _ hrest]
      exact assignInts_preserve _ _ _ _ _ hmem

/-- The declaration loop never touches a name no declaration declares. -/
theorem extractIntFrom_preserve (ds : List GoDecl) (out : Mp Int) (n : Str)
    (h : ∀ d ∈ ds, declaresIn d n = false) :
    extractIntFrom ds out n = out n := by
  induction ds generalizing out with
  | nil => rfl
  | cons d rest ih =>
    show extractIntFrom rest (extractStep out d) n = out n
    rw [ih _ (fun d' hd' => h d' (List.mem_cons_of_mem _ hd'))]
    cases d with
    | nonConst => rfl
    | constGroup specs =>
      exact runSpecs_preserve specs 0 [] out n (h _ (List.mem_cons_self _ _))

/-- Splitting the spec loop: after the first `s1` specs the `iota` counter
has advanced by exactly the number of value specs in `s1` and the carried
RHS is `carryRHS s1 prev`. -/
theorem runSpecs_append (s1 s2 : List GoSpec) (i : Nat) (prev : List Expr) (out : Mp Int) :
    runSpecs (s1 ++ s2) i prev out =
      runSpecs s2 (i + countV s1) (carryRHS s1 prev) (runSpecs s1 i prev out) := by
  induction s1 generalizing i prev out with
  | nil => simp [runSpecs, countV, carryRHS]
  | cons sp rest ih =>
    cases sp with
    | nonValue =>
      show runSpecs (rest ++ s2) i prev out = _
      rw [ih]
      rfl
    | value names values comments =>
      show runSpecs (rest ++ s2) (i + 1) _ _ = _
      rw [ih]
      have hc : i + 1 + countV rest = i + (countV rest + 1) := by omega
      rw [hc]
      rfl

/-- C3: within a group the placeholder for the n-th spec is its zero-based
position — the counter starts at 0 per group, advances once per spec (not
per name), and an omitted expression list reuses the most recent explicit
one — so the group `A = iota + 10`, `B`, `C` extracts to `A=10, B=11, C=12`
wherever the group sits among declarations that do not redeclare those
names. -/
theorem c3_iota_positions (s1 s2 : List GoSpec) (i : Nat) (prev : List Expr)
    (out : Mp Int) (specs : List GoSpec) (ds ds2 : List GoDecl) :
    (runSpecs (s1 ++ s2) i prev out =
      runSpecs s2 (i + countV s1) (carryRHS s1 prev) (runSpecs s1 i prev out)) ∧
    (extractIntFrom (GoDecl.constGroup specs :: ds) out =
      extractIntFrom ds (runSpecs specs 0 [] out)) ∧
    ((∀ d ∈ ds2, declaresIn d (gs "A") = false ∧ declaresIn d (gs "B") = false ∧
        declaresIn d (gs "C") = false) →
      ∀ ds1 : List GoDecl,
        extractInt (ds1 ++ GoDecl.constGroup exABC :: ds2) (gs "A") = some 10 ∧
        extractInt (ds1 ++ GoDecl.constGroup exABC :: ds2) (gs "B") = some 11 ∧
        extractInt (ds1 ++ GoDecl.constGroup exABC :: ds2) (gs "C") = some 12) := by
  refine ⟨runSpecs_append s1 s2 i prev out, rfl, fun h ds1 => ?_⟩
  have hsplit : ∀ n : Str,
      extractInt (ds1 ++ GoDecl.constGroup exABC :: ds2) n =
        extractIntFrom ds2 (runSpecs exABC 0 [] (extractIntFrom ds1 mempty)) n := by
    intro n
    unfold extractInt extractIntFrom
    rw [List.foldl_append]
    rfl
  refine ⟨?_, ?_, ?_⟩
  · rw [hsplit, extractIntFrom_preserve ds2 _ _ (fun d hd => (h d hd).1)]
    rfl
  · rw [hsplit, extractIntFrom_preserve ds2 _ _ (fun d hd => (h d hd).2.1)]
    rfl
  · rw [hsplit, extractIntFrom_preserve ds2 _ _ (fun d hd => (h d hd).2.2)]
    rfl

/-- Witness for C3: the example group alone in a file. -/
theorem c3_witness :
    extractInt [GoDecl.constGroup exABC] (gs "A") = some 10 ∧
    extractInt [GoDecl.constGroup exABC] (gs "B") = some 11 ∧
    extractInt [GoDecl.constGroup exABC] (gs "C") = some 12 := by
  exact (c3_iota_positions [] [] 0 [] mempty exABC [] []).2.2
    (fun d hd => by cases hd) []

/-! ## Assembler claims -/

/-- A run of the join loop over entries all missing one of the two comment
maps registers nothing and succeeds. -/
theorem registerLoop_skip_all (codes : List (Str × Int)) (ext http : Mp Str) (s : RegState)
    (h : ∀ p ∈ codes, ext p.1 = none ∨ http p.1 = none) :
    registerLoop codes ext http s = JoinResult.okReg s := by
  induction codes with
  | nil => rfl
  | cons p rest ih =>
    obtain ⟨name, code⟩ := p
    have htail := fun q hq => h q (List.mem_cons_of_mem _ hq)
    rcases h _ (List.mem_cons_self _ _) with he | hh
    · simp only [registerLoop, he]
      exact ih htail
    · cases hext : ext name with
      | none =>
        simp only [registerLoop, hext]
        exact ih htail
      | some e =>
        simp only [registerLoop, hext, hh]
        exact ih htail

/-- C2 is false as stated: the symbol `ErrX` has an integer value (100) and
is present in both comment maps, but its comment parsed to the empty status
string, so `strconv.Atoi` fails and `MustRegisterCode`'s loop returns an
error — the whole registration call fails instead of silently excluding the
symbol. -/
theorem c2_counterexample :
    extX (gs "ErrX") = some [] ∧ httpX (gs "ErrX") = some [] ∧ goAtoi [] = none ∧
    registerLoop [(gs "ErrX", 100)] extX httpX initState = JoinResult.errored := by
  exact ⟨rfl, rfl, rfl, rfl⟩

/-- C2 amended: the loop registers a record exactly for symbols present in
the integer map AND both comment maps; a symbol missing either comment map
is silently skipped and never causes a failure; but a joined symbol whose
HTTP string is empty or non-numeric makes the call return an error, and one
whose code is 0 or already registered makes `MustRegister` panic. -/
theorem c2_join_policy (name : Str) (code : Int) (rest : List (Str × Int))
    (ext http : Mp Str) (s : RegState) (e h : Str) (st : Int) :
    (ext name = none →
      registerLoop ((name, code) :: rest) ext http s = registerLoop rest ext http s) ∧
    (http name = none →
      registerLoop ((name, code) :: rest) ext http s = registerLoop rest ext http s) ∧
    (ext name = some e → http name = some h → goAtoi h = none →
      registerLoop ((name, code) :: rest) ext http s = JoinResult.errored) ∧
    (ext name = some e → http name = some h → goAtoi h = some st → code ≠ 0 → s code = none →
      registerLoop ((name, code) :: rest) ext http s =
        registerLoop rest ext http (rset s code { C := code, HTTP := st, Ext := e, Ref := [] })) ∧
    (ext name = some e → http name = some h → goAtoi h = some st →
      (code = 0 ∨ (s code).isSome = true) →
      registerLoop ((name, code) :: rest) ext http s = JoinResult.panicked) ∧
    (∀ codes : List (Str × Int), (∀ p ∈ codes, ext p.1 = none ∨ http p.1 = none) →
      registerLoop codes ext http s = JoinResult.okReg s) := by
  refine ⟨fun he => ?_, fun hh => ?_, fun he hh ha => ?_, fun he hh ha hc hs => ?_,
    fun he hh ha hz => ?_, fun codes hskip => registerLoop_skip_all codes ext http s hskip⟩
  · simp only [registerLoop, he]
  · cases hext : ext name with
    | none => simp only [registerLoop, hext]
    | some e' => simp only [registerLoop, hext, hh]
  · simp only [registerLoop, he, hh, ha]
  · simp only [registerLoop, he, hh, ha, mustRegister, hc, if_neg hc, hs, Option.isSome_none,
      Bool.false_eq_true, if_false]
  · rcases hz with hz | hz
    · simp only [registerLoop, he, hh, ha, mustRegister, hz, if_pos]
    · simp only [registerLoop, he, hh, ha, mustRegister, hz, if_true]
      by_cases hc : code = 0 <;> simp [hc]

/-- Witness for the amended C2: the empty-status symbol errors the loop,
and a loop with no joinable entries succeeds without registering. -/
theorem c2_witness :
    registerLoop [(gs "ErrX", 100)] extX httpX initState = JoinResult.errored ∧
    registerLoop [] extX httpX initState = JoinResult.okReg initState := by
  constructor
  · exact (c2_join_policy (gs "ErrX") 100 [] extX httpX initState [] [] 0).2.2.1 rfl rfl rfl
  · exact (c2_join_policy (gs "ErrX") 100 [] extX httpX initState [] [] 0).2.2.2.2.2
      [] (fun p hp => by cases hp)

/-! ## Comment-parser claims -/

/-- C1 is false as stated: on the comment `ErrFoo` — which has the `Err`
prefix but no `-`/`:`/`.` separators — both parsers hit an out-of-range
slice index and panic (`none`), and one such comment in a file makes the
whole `ExtractComment` run abort instead of degrading to an empty string. -/
theorem c1_counterexample :
    parseErrExternal (gs "ErrFoo") = none ∧
    parseErrHTTPStatus (gs "ErrFoo") = none ∧
    extractComment fileBadComment parseErrExternal = none := by
  exact ⟨by decide, by decide, rfl⟩

/-- C1 amended: the parsers return the empty string (with a logged warning)
exactly for comments missing the `Err` prefix; for an `Err`-prefixed
comment, `ParseErrExternal` panics if and only if no `": "` occurs before
the first `.`, and `ParseErrHTTPStatus` panics if and only if fewer than
three space-separated fields precede the first `:`; a panicking comment
aborts the whole `ExtractComment` run. -/
theorem c1_parser_behaviour (com : Str) :
    (¬ (gs "Err").isPrefixOf com →
      parseErrExternal com = some [] ∧ parseErrHTTPStatus com = some []) ∧
    ((gs "Err").isPrefixOf com →
      (parseErrExternal com = none ↔
        occursB (gs ": ") ((splitGo (gs ".") com).headD []) = false) ∧
      (parseErrHTTPStatus com = none ↔
        (splitGo (gs " ") ((splitGo (gs ":") com).headD [])).length < 3)) ∧
    (parseErrExternal com = none →
      ∀ (names : List Str) (values : List Expr) (specs : List GoSpec) (rest : List GoDecl),
        extractComment (GoDecl.constGroup (GoSpec.value names values [com] :: specs) :: rest)
          parseErrExternal = none) := by
  refine ⟨fun h => ?_, fun h => ⟨?_, ?_⟩, fun h names values specs rest => ?_⟩
  · constructor <;> simp [parseErrExternal, parseErrHTTPStatus, h]
  · rw [parseErrExternal, if_pos h, List.get?_eq_none]
    constructor
    · intro hle
      by_contra hocc
      simp only [Bool.not_eq_false] at hocc
      have := (splitGo_two_le_iff_occurs _ _ (by decide)).mpr hocc
      omega
    · intro hocc
      by_contra hgt
      have h2 := (splitGo_two_le_iff_occurs (gs ": ")
        ((splitGo (gs ".") com).headD []) (by decide)).mp (by omega)
      exact absurd h2 (by simpa using hocc)
  · rw [parseErrHTTPStatus, if_pos h, List.get?_eq_none]
    omega
  · simp [extractComment, List.foldlM, h]

/-- Witness for the amended C1: a prefix-less comment degrades to the empty
string, and a well-formed comment does not panic. -/
theorem c1_witness :
    parseErrExternal (gs "bad comment") = some [] ∧
    parseErrHTTPStatus (gs "bad comment") = some [] ∧
    (parseErrExternal (gs "ErrFoo - 404: Foo missing.") = none ↔
      occursB (gs ": ") ((splitGo (gs ".") (gs "ErrFoo - 404: Foo missing.")).headD []) =
        false) := by
  refine ⟨?_, ?_, ?_⟩
  · exact ((c1_parser_behaviour (gs "bad comment")).1 (by decide)).1
  · exact ((c1_parser_behaviour (gs "bad comment")).1 (by decide)).2
  · exact ((c1_parser_behaviour (gs "ErrFoo - 404: Foo missing.")).2.1 (by decide)).1

end Siam
